import Mathlib

/-!
Shallow embedding of `src/hc_array.h` (the handy-core generic dynamic array).

Modelling conventions:
* `size_t` values are `Nat`; the source targets 64-bit, and in the one
  computation where overflow is reachable — the bit-twiddling capacity
  growth — the wrap is modelled explicitly with `% 2 ^ 64`.
* The storage region is a `List Nat` of bytes; `data = none` models a `NULL`
  pointer.  Bytes that C leaves indeterminate (fresh `malloc` memory, the tail
  added by a growing `realloc`) are modelled as `0`.
* Allocation success is nondeterministic in C; each operation that may call
  `HC_MALLOC`/`HC_REALLOC` takes an explicit `alloc_ok : Bool` oracle.
* `memcpy`/`memmove` become list surgery: `memmove` first captures the source
  range and then writes it, which is exactly its overlapping-safe semantics.
* `pop_*` output pointers: the call carries `want_out : Bool` (out pointer
  non-NULL) and returns the copied bytes as an `Option (List Nat)`.
* Return values of type `int` are `Int`.
-/

namespace HC

/-- `enum hc_retcode_array`: `HC_ARRAY_ERROR_OUT_OF_BOUNDS = -2`. -/
def HC_ARRAY_ERROR_OUT_OF_BOUNDS : Int := -2

/-- `enum hc_retcode_array`: `HC_ARRAY_ERROR_OUT_OF_MEMORY = -1`. -/
def HC_ARRAY_ERROR_OUT_OF_MEMORY : Int := -1

/-- `enum hc_retcode_array`: `HC_ARRAY_SUCCESS = 0`. -/
def HC_ARRAY_SUCCESS : Int := 0

/-- `enum hc_retcode_array`: `HC_ARRAY_EMPTY = 1`. -/
def HC_ARRAY_EMPTY : Int := 1

/-- `struct hc_array_t`: `data` (NULL modelled as `none`), `count`,
`capacity`, `elem_size`. -/
structure hc_array_t where
  data : Option (List Nat)
  count : Nat
  capacity : Nat
  elem_size : Nat
deriving Repr, DecidableEq

/-- The bytes behind `vec->data` (`[]` when the pointer is NULL; dereferencing
a NULL pointer is UB in C, so any theorem that relies on contents carries a
`data = some _` hypothesis). -/
def bytesOf (v : hc_array_t) : List Nat := v.data.getD []

/-- Read of exactly `n` bytes from a source region `l` (C reads whatever is
there; a short model list is padded with 0, which only matters outside the
in-bounds regime the theorems work in). -/
def padTruncate (l : List Nat) (n : Nat) : List Nat :=
  (l ++ List.replicate n 0).take n

/-- `memcpy(l + off, src, src.length)` within one region. -/
def writeBytes (l : List Nat) (off : Nat) (src : List Nat) : List Nat :=
  l.take off ++ src ++ l.drop (off + src.length)

/-- The `len` bytes at offset `off` of `l`. -/
def readBytes (l : List Nat) (off len : Nat) : List Nat :=
  (l.drop off).take len

/-- `memmove(l + dst, l + src, len)`: capture the source range first, then
write it (the overlap-safe semantics of `memmove`). -/
def memmoveBytes (l : List Nat) (dst src len : Nat) : List Nat :=
  writeBytes l dst (readBytes l src len)

/-- `HC_REALLOC(vec->data, new_bytes)`: on success the old contents are kept
up to the new size and any added tail is indeterminate (modelled 0); on
failure `NULL` is returned and the old region is untouched.
`realloc(NULL, n)` behaves as `malloc(n)`, which `bytesOf = []` captures. -/
def reallocBytes (v : hc_array_t) (new_bytes : Nat) (alloc_ok : Bool) :
    Option (List Nat) :=
  if alloc_ok then some (padTruncate (bytesOf v) new_bytes) else none

/-- `hc_array_create` (src/hc_array.h:91): zeroed struct on a zero argument
or allocation failure, else an allocation of `capacity * elem_size` bytes
with `count = 0`. -/
def hc_array_create (capacity elem_size : Nat) (alloc_ok : Bool) :
    hc_array_t :=
  if capacity = 0 ∨ elem_size = 0 then ⟨none, 0, 0, 0⟩
  else if alloc_ok then
    ⟨some (List.replicate (capacity * elem_size) 0), 0, capacity, elem_size⟩
  else ⟨none, 0, 0, 0⟩

/-- `hc_array_destroy` (src/hc_array.h:109): frees the data and zeroes every
field. -/
def hc_array_destroy (_v : hc_array_t) : hc_array_t := ⟨none, 0, 0, 0⟩

/-- `hc_array_copy` (src/hc_array.h:120): zeroed struct when
`count * elem_size = 0` or the allocation fails; otherwise a fresh buffer
holding the first `count * elem_size` bytes with `capacity = count`. -/
def hc_array_copy (src : hc_array_t) (alloc_ok : Bool) : hc_array_t :=
  let size_in_bytes := src.count * src.elem_size
  if size_in_bytes = 0 then ⟨none, 0, 0, 0⟩
  else if alloc_ok then
    ⟨some (padTruncate (bytesOf src) size_in_bytes), src.count, src.count,
      src.elem_size⟩
  else ⟨none, 0, 0, 0⟩

/-- `hc_array_is_valid` (src/hc_array.h:139). -/
def hc_array_is_valid (v : hc_array_t) : Bool :=
  v.data.isSome && decide (0 < v.capacity) && decide (0 < v.elem_size)

/-- `hc_array_is_empty` (src/hc_array.h:146). -/
def hc_array_is_empty (v : hc_array_t) : Bool :=
  v.count == 0

/-- `hc_array_reserve` (src/hc_array.h:151). -/
def hc_array_reserve (v : hc_array_t) (new_capacity : Nat)
    (alloc_ok : Bool) : Int × hc_array_t :=
  if v.capacity ≥ new_capacity then (HC_ARRAY_SUCCESS, v)
  else
    match reallocBytes v (new_capacity * v.elem_size) alloc_ok with
    | none => (HC_ARRAY_ERROR_OUT_OF_MEMORY, v)
    | some bs =>
      (HC_ARRAY_SUCCESS, { v with data := some bs, capacity := new_capacity })

/-- `hc_array_shrink_to_fit` (src/hc_array.h:166).  The `count == capacity`
branch returns the literal `1` of the source. -/
def hc_array_shrink_to_fit (v : hc_array_t) (alloc_ok : Bool) :
    Int × hc_array_t :=
  if v.count = v.capacity then (1, v)
  else if v.count = 0 then (HC_ARRAY_EMPTY, v)
  else
    match reallocBytes v (v.count * v.elem_size) alloc_ok with
    | none => (HC_ARRAY_ERROR_OUT_OF_MEMORY, v)
    | some bs =>
      (HC_ARRAY_SUCCESS, { v with data := some bs, capacity := v.count })

/-- `hc_array_clear` (src/hc_array.h:185). -/
def hc_array_clear (v : hc_array_t) : hc_array_t :=
  { v with count := 0 }

/-- `hc_array_fill` (src/hc_array.h:190): one `memcpy` of the element per
slot, stepping by `elem_size` up to `capacity * elem_size` bytes, then
`count = capacity`.  (With `elem_size = 0` the loop body never runs; the
written block is then empty, which the uniform formula also yields.) -/
def hc_array_fill (v : hc_array_t) (elem : List Nat) : hc_array_t :=
  { v with
    data := v.data.map (fun bs =>
      writeBytes bs 0
        (List.flatten (List.replicate v.capacity (padTruncate elem v.elem_size)))),
    count := v.capacity }

/-- The capacity-growth computation that `hc_array_insert`,
`hc_array_push_back`, `hc_array_push_front` and `hc_array_push_at` each
repeat verbatim (src/hc_array.h:207-223 and clones), with the 64-bit
`new_size |= new_size >> 32` branch active: if `new_size` passes the
`(new_size & (new_size - 1)) == 0` test it is doubled, otherwise it is
rounded up by the decrement / or-smear / increment sequence.  The
computation runs in `size_t`, so the doubling shift and the final increment
wrap modulo `2 ^ 64` (the decrement, shifts and ors cannot overflow on the
branch they occur in: the smear branch has `new_size ≥ 2`, and shifting
right or or-ing never raises the bit width). -/
def hc_grow_size (new_size : Nat) : Nat :=
  if new_size &&& (new_size - 1) = 0 then
    (new_size <<< 1) % 2 ^ 64
  else
    let m0 := new_size - 1
    let m1 := m0 ||| (m0 >>> 1)
    let m2 := m1 ||| (m1 >>> 2)
    let m3 := m2 ||| (m2 >>> 4)
    let m4 := m3 ||| (m3 >>> 8)
    let m5 := m4 ||| (m4 >>> 16)
    let m6 := m5 ||| (m5 >>> 32)
    (m6 + 1) % 2 ^ 64

/-- The straight-line tail of `hc_array_insert` (src/hc_array.h:228-241):
`memmove` the elements at and after `index` of the original `old_count`
elements right by `count` slots, `memcpy` the new elements in, and assign
the local `new_size` to `vec->count`. -/
def insert_tail (w : hc_array_t) (index count old_count new_size : Nat)
    (elements : List Nat) : hc_array_t :=
  let es := w.elem_size
  let bs1 := memmoveBytes (bytesOf w) ((index + count) * es) (index * es)
    ((old_count - index) * es)
  let bs2 := writeBytes bs1 (index * es) (padTruncate elements (count * es))
  { w with data := some bs2, count := new_size }

/-- `hc_array_insert` (src/hc_array.h:199).  Faithful to the source, the
local `new_size` that was overwritten with the grown capacity in the growth
branch is what is finally assigned to `vec->count`. -/
def hc_array_insert (v : hc_array_t) (index : Nat) (elements : List Nat)
    (count : Nat) (alloc_ok : Bool) : Int × hc_array_t :=
  if index > v.count then (HC_ARRAY_ERROR_OUT_OF_BOUNDS, v)
  else if v.count + count > v.capacity then
    let step := hc_array_reserve v (hc_grow_size (v.count + count)) alloc_ok
    if step.1 < 0 then (step.1, step.2)
    else
      (HC_ARRAY_SUCCESS,
        insert_tail step.2 index count v.count
          (hc_grow_size (v.count + count)) elements)
  else
    (HC_ARRAY_SUCCESS,
      insert_tail v index count v.count (v.count + count) elements)

/-- `hc_array_at` (src/hc_array.h:259): `NULL` for `index >= count`, else a
pointer to the element (modelled as the `elem_size` bytes it addresses). -/
def hc_array_at (v : hc_array_t) (index : Nat) : Option (List Nat) :=
  if index ≥ v.count then none
  else some (readBytes (bytesOf v) (index * v.elem_size) v.elem_size)

/-- `hc_array_push_back` (src/hc_array.h:265). -/
def hc_array_push_back (v : hc_array_t) (element : Option (List Nat))
    (alloc_ok : Bool) : Int × hc_array_t :=
  let step : Int × hc_array_t :=
    if v.count ≥ v.capacity then
      hc_array_reserve v (hc_grow_size (v.count + 1)) alloc_ok
    else (HC_ARRAY_SUCCESS, v)
  if step.1 < 0 then (step.1, step.2)
  else
    let w := step.2
    let es := w.elem_size
    let src := match element with
      | some e => padTruncate e es
      | none => List.replicate es 0
    (HC_ARRAY_SUCCESS,
      { w with data := some (writeBytes (bytesOf w) (v.count * es) src),
               count := v.count + 1 })

/-- `hc_array_push_front` (src/hc_array.h:297): shift everything right by one
slot, then write the element (or zeroes) at offset 0. -/
def hc_array_push_front (v : hc_array_t) (element : Option (List Nat))
    (alloc_ok : Bool) : Int × hc_array_t :=
  let step : Int × hc_array_t :=
    if v.count ≥ v.capacity then
      hc_array_reserve v (hc_grow_size (v.count + 1)) alloc_ok
    else (HC_ARRAY_SUCCESS, v)
  if step.1 < 0 then (step.1, step.2)
  else
    let w := step.2
    let es := w.elem_size
    let bs1 := memmoveBytes (bytesOf w) es 0 (v.count * es)
    let src := match element with
      | some e => padTruncate e es
      | none => List.replicate es 0
    (HC_ARRAY_SUCCESS,
      { w with data := some (writeBytes bs1 0 src), count := v.count + 1 })

/-- `hc_array_push_at` (src/hc_array.h:337).  Faithful to the source: the
`memmove` there is called with `destination` and `source` both equal to
`data + index * elem_size` (src/hc_array.h:366-369), and the element is then
copied over offset `index * elem_size`. -/
def hc_array_push_at (v : hc_array_t) (index : Nat)
    (element : Option (List Nat)) (alloc_ok : Bool) : Int × hc_array_t :=
  if index ≥ v.count then (HC_ARRAY_ERROR_OUT_OF_BOUNDS, v)
  else
    let step : Int × hc_array_t :=
      if v.count ≥ v.capacity then
        hc_array_reserve v (hc_grow_size (v.count + 1)) alloc_ok
      else (HC_ARRAY_SUCCESS, v)
    if step.1 < 0 then (step.1, step.2)
    else
      let w := step.2
      let es := w.elem_size
      let bs1 := memmoveBytes (bytesOf w) (index * es) (index * es)
        ((v.count - index) * es)
      let src := match element with
        | some e => padTruncate e es
        | none => List.replicate es 0
      (HC_ARRAY_SUCCESS,
        { w with data := some (writeBytes bs1 (index * es) src),
                 count := v.count + 1 })

/-- `hc_array_pop_back` (src/hc_array.h:381). -/
def hc_array_pop_back (v : hc_array_t) (want_out : Bool) :
    Int × hc_array_t × Option (List Nat) :=
  if v.count = 0 then (HC_ARRAY_EMPTY, v, none)
  else
    let out :=
      if want_out then
        some (readBytes (bytesOf v) ((v.count - 1) * v.elem_size) v.elem_size)
      else none
    (HC_ARRAY_SUCCESS, { v with count := v.count - 1 }, out)

/-- `hc_array_pop_front` (src/hc_array.h:396). -/
def hc_array_pop_front (v : hc_array_t) (want_out : Bool) :
    Int × hc_array_t × Option (List Nat) :=
  if v.count = 0 then (HC_ARRAY_EMPTY, v, none)
  else
    let es := v.elem_size
    let out := if want_out then some (readBytes (bytesOf v) 0 es) else none
    let bs1 := memmoveBytes (bytesOf v) 0 es ((v.count - 1) * es)
    (HC_ARRAY_SUCCESS, { v with data := some bs1, count := v.count - 1 }, out)

/-- `hc_array_pop_at` (src/hc_array.h:418). -/
def hc_array_pop_at (v : hc_array_t) (index : Nat) (want_out : Bool) :
    Int × hc_array_t × Option (List Nat) :=
  if index ≥ v.count then (HC_ARRAY_ERROR_OUT_OF_BOUNDS, v, none)
  else
    let es := v.elem_size
    let out :=
      if want_out then some (readBytes (bytesOf v) (index * es) es) else none
    let bs1 := memmoveBytes (bytesOf v) (index * es) ((index + 1) * es)
      ((v.count - index - 1) * es)
    (HC_ARRAY_SUCCESS, { v with data := some bs1, count := v.count - 1 }, out)

/-- One API call, with its arguments and its allocation oracle, for reasoning
about arbitrary call sequences. -/
inductive HCOp where
  | createOp (cap es : Nat) (ok : Bool)
  | destroyOp
  | copyOp (ok : Bool)
  | reserveOp (newCap : Nat) (ok : Bool)
  | shrinkOp (ok : Bool)
  | clearOp
  | fillOp (e : List Nat)
  | insertOp (idx : Nat) (e : List Nat) (n : Nat) (ok : Bool)
  | pushBackOp (e : Option (List Nat)) (ok : Bool)
  | pushFrontOp (e : Option (List Nat)) (ok : Bool)
  | pushAtOp (idx : Nat) (e : Option (List Nat)) (ok : Bool)
  | popBackOp (out : Bool)
  | popFrontOp (out : Bool)
  | popAtOp (idx : Nat) (out : Bool)

/-- Apply one API call to the buffer (`createOp` rebinds the variable to a
fresh buffer, `copyOp` continues on the copy). -/
def HCOp.apply (v : hc_array_t) : HCOp → hc_array_t
  | .createOp cap es ok => hc_array_create cap es ok
  | .destroyOp => hc_array_destroy v
  | .copyOp ok => hc_array_copy v ok
  | .reserveOp c ok => (hc_array_reserve v c ok).2
  | .shrinkOp ok => (hc_array_shrink_to_fit v ok).2
  | .clearOp => hc_array_clear v
  | .fillOp e => hc_array_fill v e
  | .insertOp i e n ok => (hc_array_insert v i e n ok).2
  | .pushBackOp e ok => (hc_array_push_back v e ok).2
  | .pushFrontOp e ok => (hc_array_push_front v e ok).2
  | .pushAtOp i e ok => (hc_array_push_at v i e ok).2
  | .popBackOp o => (hc_array_pop_back v o).2.1
  | .popFrontOp o => (hc_array_pop_front v o).2.1
  | .popAtOp i o => (hc_array_pop_at v i o).2.1

theorem length_padTruncate (l : List Nat) (n : Nat) :
    (padTruncate l n).length = n := by
  simp [padTruncate]

theorem padTruncate_self (l : List Nat) : padTruncate l l.length = l := by
  rw [padTruncate, List.take_left]

theorem length_writeBytes (l src : List Nat) (off : Nat)
    (h : off + src.length ≤ l.length) :
    (writeBytes l off src).length = l.length := by
  simp [writeBytes]
  omega

theorem length_readBytes (l : List Nat) (off len : Nat)
    (h : off + len ≤ l.length) :
    (readBytes l off len).length = len := by
  simp [readBytes]
  omega

theorem take_writeBytes (l src : List Nat) (off : Nat) (h : off ≤ l.length) :
    (writeBytes l off src).take off = l.take off := by
  rw [writeBytes, List.append_assoc]
  exact List.take_left' (by simp; omega)

theorem readBytes_writeBytes (l src : List Nat) (off : Nat)
    (h : off ≤ l.length) :
    readBytes (writeBytes l off src) off src.length = src := by
  rw [readBytes, writeBytes, List.append_assoc,
    List.drop_left' (by simp; omega), List.take_left]

/-! ## Theory of the or-smear growth computation -/

/-- One `x |= x >> k` step of the rounding sequence. -/
def smearStep (x k : Nat) : Nat := x ||| (x >>> k)

/-- The six-step or-smear of the source's non-power-of-two branch. -/
def smear6 (m : Nat) : Nat :=
  smearStep (smearStep (smearStep (smearStep (smearStep (smearStep m 1) 2) 4)
    8) 16) 32

theorem testBit_smearStep (x k i : Nat) :
    (smearStep x k).testBit i = (x.testBit i || x.testBit (i + k)) := by
  simp [smearStep, Nat.testBit_lor, Nat.testBit_shiftRight, Nat.add_comm]

theorem smearStep_window (m x j : Nat)
    (hx : ∀ i, x.testBit i = true ↔ ∃ d, d < j ∧ m.testBit (i + d) = true) :
    ∀ i, (smearStep x j).testBit i = true ↔
      ∃ d, d < 2 * j ∧ m.testBit (i + d) = true := by
  intro i
  rw [testBit_smearStep, Bool.or_eq_true, hx i, hx (i + j)]
  constructor
  · rintro (⟨d, hd, hb⟩ | ⟨d, hd, hb⟩)
    · exact ⟨d, by omega, hb⟩
    · exact ⟨j + d, by omega, by rwa [← Nat.add_assoc]⟩
  · rintro ⟨d, hd, hb⟩
    by_cases hdj : d < j
    · exact Or.inl ⟨d, hdj, hb⟩
    · refine Or.inr ⟨d - j, by omega, ?_⟩
      have hjd : j + (d - j) = d := by omega
      rwa [Nat.add_assoc, hjd]

theorem smear6_window (m : Nat) :
    ∀ i, (smear6 m).testBit i = true ↔ ∃ d, d < 64 ∧ m.testBit (i + d) = true := by
  have h0 : ∀ i, m.testBit i = true ↔ ∃ d, d < 1 ∧ m.testBit (i + d) = true := by
    intro i
    constructor
    · intro hb
      exact ⟨0, by omega, by simpa using hb⟩
    · rintro ⟨d, hd, hb⟩
      obtain rfl : d = 0 := by omega
      simpa using hb
  have h1 := smearStep_window m m 1 h0
  have h2 := smearStep_window m _ 2 h1
  have h4 := smearStep_window m _ 4 h2
  have h8 := smearStep_window m _ 8 h4
  have h16 := smearStep_window m _ 16 h8
  have h32 := smearStep_window m _ 32 h16
  exact h32

theorem testBit_log2_self (m : Nat) (h : m ≠ 0) : m.testBit m.log2 = true := by
  have h1 : 2 ^ m.log2 ≤ m := Nat.log2_self_le h
  have h2 : m < 2 ^ (m.log2 + 1) := Nat.lt_log2_self
  have hpow : 2 ^ (m.log2 + 1) = 2 ^ m.log2 * 2 := by rw [Nat.pow_succ]
  have hpos : 0 < 2 ^ m.log2 := Nat.pos_pow_of_pos _ (by norm_num)
  have hdiv : m / 2 ^ m.log2 = 1 := by
    have lo : 1 ≤ m / 2 ^ m.log2 := (Nat.one_le_div_iff hpos).2 h1
    have hi : m / 2 ^ m.log2 < 2 := by
      rw [Nat.div_lt_iff_lt_mul hpos]
      omega
    omega
  rw [Nat.testBit_to_div_mod, hdiv]
  rfl

theorem smear6_of_lt (m : Nat) (h0 : m ≠ 0) (h64 : m < 2 ^ 64) :
    smear6 m = 2 ^ (m.log2 + 1) - 1 := by
  apply Nat.eq_of_testBit_eq
  intro i
  rw [Nat.testBit_two_pow_sub_one]
  rcases le_or_lt i m.log2 with hi | hi
  · have hbit : (smear6 m).testBit i = true := by
      rw [smear6_window]
      refine ⟨m.log2 - i, ?_, ?_⟩
      · have : m.log2 < 64 := (Nat.log2_lt h0).2 h64
        omega
      · have hik : i + (m.log2 - i) = m.log2 := by omega
        rw [hik]
        exact testBit_log2_self m h0
    rw [hbit]
    have : i < m.log2 + 1 := by omega
    simp [this]
  · have hbit : (smear6 m).testBit i = false := by
      rcases Bool.eq_false_or_eq_true ((smear6 m).testBit i) with hb | hb
      · exfalso
        obtain ⟨d, _, hd⟩ := (smear6_window m i).1 hb
        have hlt : m < 2 ^ (i + d) :=
          lt_of_lt_of_le Nat.lt_log2_self
            (Nat.pow_le_pow_right (by norm_num) (by omega))
        rw [Nat.testBit_lt_two_pow hlt] at hd
        exact Bool.false_ne_true hd
      · exact hb
    rw [hbit]
    have : ¬ i < m.log2 + 1 := by omega
    simp [this]

theorem log2_two_pow (k : Nat) : (2 ^ k).log2 = k := by
  have h0 : (2 : Nat) ^ k ≠ 0 := (Nat.pos_pow_of_pos _ (by norm_num)).ne'
  have h1 : k ≤ (2 ^ k).log2 := (Nat.le_log2 h0).2 (Nat.le_refl _)
  have hpow : (2 : Nat) ^ (k + 1) = 2 ^ k * 2 := by rw [Nat.pow_succ]
  have hpos : 0 < (2 : Nat) ^ k := Nat.pos_pow_of_pos _ (by norm_num)
  have h2 : (2 ^ k).log2 < k + 1 := (Nat.log2_lt h0).2 (by omega)
  omega

/-- The `(new_size & (new_size - 1)) == 0` test recognizes exactly the powers
of two among the nonzero sizes. -/
theorem land_pred_eq_zero_iff (n : Nat) (h : n ≠ 0) :
    n &&& (n - 1) = 0 ↔ n = 2 ^ n.log2 := by
  constructor
  · intro hand
    have hle : 2 ^ n.log2 ≤ n := Nat.log2_self_le h
    rcases Nat.eq_or_lt_of_le hle with he | hlt
    · exact he.symm
    · exfalso
      have hub : n < 2 ^ (n.log2 + 1) := Nat.lt_log2_self
      have hpow : 2 ^ (n.log2 + 1) = 2 ^ n.log2 * 2 := by rw [Nat.pow_succ]
      have hpos : 0 < 2 ^ n.log2 := Nat.pos_pow_of_pos _ (by norm_num)
      have hdiv : (n - 1) / 2 ^ n.log2 = 1 := by
        have lo : 1 ≤ (n - 1) / 2 ^ n.log2 :=
          (Nat.one_le_div_iff hpos).2 (by omega)
        have hi : (n - 1) / 2 ^ n.log2 < 2 := by
          rw [Nat.div_lt_iff_lt_mul hpos]
          omega
        omega
      have hb1 : (n - 1).testBit n.log2 = true := by
        rw [Nat.testBit_to_div_mod, hdiv]
        rfl
      have hb2 : n.testBit n.log2 = true := testBit_log2_self n h
      have hb : (n &&& (n - 1)).testBit n.log2 = true := by
        rw [Nat.testBit_land, hb1, hb2]
        rfl
      rw [hand, Nat.zero_testBit] at hb
      exact Bool.false_ne_true hb
  · intro he
    obtain ⟨k, hk⟩ : ∃ k, n = 2 ^ k := ⟨n.log2, he⟩
    subst hk
    apply Nat.eq_of_testBit_eq
    intro i
    rw [Nat.testBit_land, Nat.testBit_two_pow, Nat.testBit_two_pow_sub_one,
      Nat.zero_testBit]
    by_cases hk : k = i
    · subst hk
      simp
    · simp [hk]

theorem hc_grow_size_pow2 (n : Nat) (h : n &&& (n - 1) = 0) :
    hc_grow_size n = (2 * n) % 2 ^ 64 := by
  rw [hc_grow_size, if_pos h, Nat.shiftLeft_eq, pow_one, Nat.mul_comm]

theorem two_pow_64_eq : (2 : Nat) ^ 64 = 2 * 2 ^ 63 := by
  rw [show (64 : Nat) = 63 + 1 from rfl, pow_succ, Nat.mul_comm]

theorem hc_grow_size_pow2_small (n : Nat) (h : n &&& (n - 1) = 0)
    (h63 : n < 2 ^ 63) : hc_grow_size n = 2 * n := by
  rw [hc_grow_size_pow2 n h]
  apply Nat.mod_eq_of_lt
  have := two_pow_64_eq
  omega

theorem hc_grow_size_not_pow2_eq (n : Nat) (h : ¬ n &&& (n - 1) = 0) :
    hc_grow_size n = (smear6 (n - 1) + 1) % 2 ^ 64 := by
  simp [hc_grow_size, h, smear6, smearStep]

theorem two_le_of_not_land (n : Nat) (h : ¬ n &&& (n - 1) = 0) : 2 ≤ n := by
  rcases n with _ | _ | n
  · exact absurd (by decide) h
  · exact absurd (by decide) h
  · omega

theorem hc_grow_size_not_pow2 (n : Nat) (h63 : n < 2 ^ 63)
    (h : ¬ n &&& (n - 1) = 0) :
    hc_grow_size n = 2 ^ (n.log2 + 1) := by
  have h2 : 2 ≤ n := two_le_of_not_land n h
  have hn0 : n ≠ 0 := by omega
  have hm0 : n - 1 ≠ 0 := by omega
  have h6364 : (2 : Nat) ^ 63 < 2 ^ 64 := by norm_num
  have hlog : (n - 1).log2 = n.log2 := by
    have hle : 2 ^ n.log2 ≤ n := Nat.log2_self_le hn0
    have hne : n ≠ 2 ^ n.log2 := fun he =>
      h ((land_pred_eq_zero_iff n hn0).2 he)
    have hub : n < 2 ^ (n.log2 + 1) := Nat.lt_log2_self
    have ha : n.log2 ≤ (n - 1).log2 := (Nat.le_log2 hm0).2 (by omega)
    have hb : (n - 1).log2 < n.log2 + 1 := (Nat.log2_lt hm0).2 (by omega)
    omega
  have hexp : n.log2 + 1 ≤ 63 := by
    have := (Nat.log2_lt hn0).2 h63
    omega
  rw [hc_grow_size_not_pow2_eq n h, smear6_of_lt (n - 1) hm0 (by omega), hlog]
  have hpos : 0 < 2 ^ (n.log2 + 1) := Nat.pos_pow_of_pos _ (by norm_num)
  have hlt : 2 ^ (n.log2 + 1) < 2 ^ 64 :=
    lt_of_le_of_lt (Nat.pow_le_pow_right (by norm_num) hexp) h6364
  rw [Nat.sub_add_cancel hpos]
  exact Nat.mod_eq_of_lt hlt

theorem le_smearStep (x k : Nat) : x ≤ smearStep x k :=
  Nat.le_of_testBit fun i hi => by rw [testBit_smearStep, hi, Bool.true_or]

theorem le_smear6 (m : Nat) : m ≤ smear6 m := by
  rw [smear6]
  exact le_trans (le_trans (le_trans (le_trans (le_trans (le_smearStep m 1)
    (le_smearStep _ 2)) (le_smearStep _ 4)) (le_smearStep _ 8))
    (le_smearStep _ 16)) (le_smearStep _ 32)

/-- At the first power of two whose doubling leaves `size_t`, the growth
computation wraps to 0. -/
theorem hc_grow_size_wrap_pow2 : hc_grow_size (2 ^ 63) = 0 := by
  have hland : (2 ^ 63 : Nat) &&& (2 ^ 63 - 1) = 0 :=
    (land_pred_eq_zero_iff _ (by positivity)).2 (by rw [log2_two_pow])
  rw [hc_grow_size_pow2 _ hland, ← two_pow_64_eq, Nat.mod_self]

theorem reserve_of_le (v : hc_array_t) (c : Nat) (ok : Bool)
    (h : c ≤ v.capacity) :
    hc_array_reserve v c ok = (HC_ARRAY_SUCCESS, v) := by
  simp [hc_array_reserve, h]

theorem reserve_of_gt_ok (v : hc_array_t) (c : Nat) (h : v.capacity < c) :
    hc_array_reserve v c true =
      (HC_ARRAY_SUCCESS,
        { v with data := some (padTruncate (bytesOf v) (c * v.elem_size)),
                 capacity := c }) := by
  rw [hc_array_reserve, if_neg (by omega)]
  rfl

theorem reserve_of_gt_fail (v : hc_array_t) (c : Nat) (h : v.capacity < c) :
    hc_array_reserve v c false = (HC_ARRAY_ERROR_OUT_OF_MEMORY, v) := by
  rw [hc_array_reserve, if_neg (by omega)]
  rfl

/-! ## Preservation of `count ≤ capacity` by every operation -/

theorem readBytes_memmove (l : List Nat) (dst src len : Nat)
    (h : src + len ≤ l.length) (h2 : dst + len ≤ l.length) :
    readBytes (memmoveBytes l dst src len) dst len = readBytes l src len := by
  have hl : (readBytes l src len).length = len := length_readBytes l src len h
  have hrw := readBytes_writeBytes l (readBytes l src len) dst (by omega)
  rw [hl] at hrw
  rw [memmoveBytes]
  exact hrw

theorem take_memmove (l : List Nat) (dst src len : Nat) (h : dst ≤ l.length) :
    (memmoveBytes l dst src len).take dst = l.take dst := by
  rw [memmoveBytes]
  exact take_writeBytes l (readBytes l src len) dst h

/-- Popping right after a byte-exact element write at slot `c` returns that
element and restores `count = c`. -/
theorem pop_after_write (w : hc_array_t) (src : List Nat) (c : Nat)
    (hsrc : src.length = w.elem_size)
    (hfit : c * w.elem_size ≤ (bytesOf w).length) :
    hc_array_pop_back
      { w with data := some (writeBytes (bytesOf w) (c * w.elem_size) src),
               count := c + 1 } true =
      (HC_ARRAY_SUCCESS,
        { w with data := some (writeBytes (bytesOf w) (c * w.elem_size) src),
                 count := c },
        some src) := by
  rw [hc_array_pop_back, if_neg (by simp)]
  have hread : readBytes (writeBytes (bytesOf w) (c * w.elem_size) src)
      (c * w.elem_size) w.elem_size = src := by
    have hb := readBytes_writeBytes (bytesOf w) src (c * w.elem_size) hfit
    rwa [hsrc] at hb
  simp only [bytesOf] at hread
  simp [bytesOf, hread]

/-- C1: inserting `[40, 50]` at index 2 into `[10, 20, 30]` (count 3,
capacity 4, elem_size 1) forces a capacity growth to 8; the source then
assigns the grown capacity to `vec->count`, so the call yields `count = 8`
(with three stale slots exposed) instead of the claimed `count = 5`, even
though the element bytes `[10, 20, 40, 50, 30]` are placed correctly.  This
evaluates the embedded `hc_array_insert` at that failing input. -/
theorem c1_insert_growth_count_bug :
    hc_array_insert ⟨some [10, 20, 30, 0], 3, 4, 1⟩ 2 [40, 50] 2 true =
      (HC_ARRAY_SUCCESS, ⟨some [10, 20, 40, 50, 30, 0, 0, 0], 8, 8, 1⟩) := by
  decide

/-- C2: `push_at(buf, 0, 7)` on a buffer holding `[10, 20]` (count 2,
capacity 4, elem_size 1) does not shift: the source's `memmove` has
`destination == source`, so the element `10` formerly at index 0 is
destroyed rather than displaced to index 1 (index 1 still holds `20`, and a
stale slot becomes live), contradicting the claimed result `[7, 10, 20]`.
This evaluates the embedded `hc_array_push_at` at that failing input. -/
theorem c2_push_at_no_shift_bug :
    hc_array_push_at ⟨some [10, 20, 0, 0], 2, 4, 1⟩ 0 (some [7]) true =
      (HC_ARRAY_SUCCESS, ⟨some [7, 20, 0, 0], 3, 4, 1⟩) := by
  decide

/-- C3 counterexample: the "already fit" call (`count = capacity = 2`) and
the "empty" call (`count = 0`) both return the value `1 = HC_ARRAY_EMPTY`,
so the two status values are not different from each other as claimed. -/
theorem c3_shrink_status_counterexample :
    (hc_array_shrink_to_fit ⟨some [1, 2], 2, 2, 1⟩ true).1 = HC_ARRAY_EMPTY ∧
    (hc_array_shrink_to_fit ⟨some [1, 2, 0, 0], 0, 4, 1⟩ true).1 =
      HC_ARRAY_EMPTY := by
  decide

/-- C3 (amended): `shrink_to_fit` returns the status value `1`
(`HC_ARRAY_EMPTY`) both when `count = capacity` (a no-op) and when
`count = 0` — the same value, not distinct statuses; on its success path it
reallocates so that capacity becomes exactly `count`, and a second call then
returns `1` without changing the capacity. -/
theorem c3_shrink_amended (v : hc_array_t) (ok : Bool) :
    (v.count = v.capacity → hc_array_shrink_to_fit v ok = (HC_ARRAY_EMPTY, v)) ∧
    (v.count = 0 → hc_array_shrink_to_fit v ok = (HC_ARRAY_EMPTY, v)) ∧
    (v.count ≠ v.capacity → v.count ≠ 0 →
      hc_array_shrink_to_fit v true =
        (HC_ARRAY_SUCCESS,
          { v with
              data := some (padTruncate (bytesOf v) (v.count * v.elem_size)),
              capacity := v.count }) ∧
      (hc_array_shrink_to_fit (hc_array_shrink_to_fit v true).2 ok).1 =
        HC_ARRAY_EMPTY ∧
      (hc_array_shrink_to_fit (hc_array_shrink_to_fit v true).2 ok).2.capacity =
        v.count) := by
  refine ⟨?_, ?_, ?_⟩
  · intro h
    rw [hc_array_shrink_to_fit, if_pos h]
    rfl
  · intro h
    by_cases hcap : v.count = v.capacity
    · rw [hc_array_shrink_to_fit, if_pos hcap]
      rfl
    · rw [hc_array_shrink_to_fit, if_neg hcap, if_pos h]
  · intro hne h0
    have hfit : hc_array_shrink_to_fit v true =
        (HC_ARRAY_SUCCESS,
          { v with
              data := some (padTruncate (bytesOf v) (v.count * v.elem_size)),
              capacity := v.count }) := by
      rw [hc_array_shrink_to_fit, if_neg hne, if_neg h0]
      rfl
    refine ⟨hfit, ?_, ?_⟩ <;>
      rw [hfit] <;>
      simp [hc_array_shrink_to_fit, HC_ARRAY_EMPTY]

/-- C3 witness: the amended statement instantiated at the
`count = 3, capacity = 8` scenario buffer: shrinking succeeds with capacity
3 and a second call answers `1` with capacity still 3. -/
theorem c3_shrink_amended_witness :
    hc_array_t.count ⟨some [1, 2, 3, 0, 0, 0, 0, 0], 3, 8, 1⟩ ≠
        hc_array_t.capacity ⟨some [1, 2, 3, 0, 0, 0, 0, 0], 3, 8, 1⟩ ∧
    hc_array_t.count ⟨some [1, 2, 3, 0, 0, 0, 0, 0], 3, 8, 1⟩ ≠ 0 ∧
    (hc_array_shrink_to_fit ⟨some [1, 2, 3, 0, 0, 0, 0, 0], 3, 8, 1⟩
        true).2.capacity = 3 ∧
    (hc_array_shrink_to_fit
        (hc_array_shrink_to_fit ⟨some [1, 2, 3, 0, 0, 0, 0, 0], 3, 8, 1⟩
          true).2 true).1 = HC_ARRAY_EMPTY ∧
    (hc_array_shrink_to_fit
        (hc_array_shrink_to_fit ⟨some [1, 2, 3, 0, 0, 0, 0, 0], 3, 8, 1⟩
          true).2 true).2.capacity = 3 :=
  ⟨by decide, by decide,
    by rw [((c3_shrink_amended ⟨some [1, 2, 3, 0, 0, 0, 0, 0], 3, 8, 1⟩
        true).2.2 (by decide) (by decide)).1],
    ((c3_shrink_amended ⟨some [1, 2, 3, 0, 0, 0, 0, 0], 3, 8, 1⟩ true).2.2
      (by decide) (by decide)).2.1,
    ((c3_shrink_amended ⟨some [1, 2, 3, 0, 0, 0, 0, 0], 3, 8, 1⟩ true).2.2
      (by decide) (by decide)).2.2⟩

/-- C4 counterexample: the buffer `{data = NULL, count = 0, capacity = 0,
elem_size = 1}` is invalid, yet `push_back` on it (with a succeeding
allocator) returns `HC_ARRAY_SUCCESS` and mutates it into a live two-slot
buffer, instead of rejecting the operation with a non-success status and
leaving the buffer unchanged. -/
theorem c4_invalid_push_counterexample :
    hc_array_is_valid ⟨none, 0, 0, 1⟩ = false ∧
    hc_array_push_back ⟨none, 0, 0, 1⟩ (some [7]) true =
      (HC_ARRAY_SUCCESS, ⟨some [7, 0], 1, 2, 1⟩) := by
  decide

/-- C4 (amended): the positional operations never check buffer validity.
On an invalid buffer whose `count` is 0, the pop operations do return a
non-success status (`HC_ARRAY_EMPTY`, or the out-of-bounds error for
`pop_at`) with the buffer unchanged, and `push_at` rejects every index; but
`push_back`, `insert` (at index 0) and `push_front` each return success and
mutate the invalid buffer `{data = NULL, count = 0, capacity = 0,
elem_size = 1}` when allocation succeeds, growing it into a live two-slot
buffer. -/
theorem c4_invalid_ops_amended (v : hc_array_t) (i : Nat) (w : Bool)
    (hinv : hc_array_is_valid v = false) (hc : v.count = 0) :
    hc_array_pop_back v w = (HC_ARRAY_EMPTY, v, none) ∧
    hc_array_pop_front v w = (HC_ARRAY_EMPTY, v, none) ∧
    hc_array_pop_at v i w = (HC_ARRAY_ERROR_OUT_OF_BOUNDS, v, none) ∧
    hc_array_push_at v i (some [7]) true = (HC_ARRAY_ERROR_OUT_OF_BOUNDS, v) ∧
    hc_array_push_back ⟨none, 0, 0, 1⟩ (some [7]) true =
      (HC_ARRAY_SUCCESS, ⟨some [7, 0], 1, 2, 1⟩) ∧
    hc_array_insert ⟨none, 0, 0, 1⟩ 0 [7] 1 true =
      (HC_ARRAY_SUCCESS, ⟨some [7, 0], 2, 2, 1⟩) ∧
    hc_array_push_front ⟨none, 0, 0, 1⟩ (some [7]) true =
      (HC_ARRAY_SUCCESS, ⟨some [7, 0], 1, 2, 1⟩) := by
  have hi : i ≥ v.count := by omega
  refine ⟨?_, ?_, ?_, ?_, ?_, ?_, ?_⟩
  · rw [hc_array_pop_back, if_pos hc]
  · rw [hc_array_pop_front, if_pos hc]
  · rw [hc_array_pop_at, if_pos hi]
  · rw [hc_array_push_at, if_pos hi]
  · decide
  · decide
  · decide

/-- C4 witness: the amended statement instantiated at the invalid buffer
`{data = NULL, count = 0, capacity = 0, elem_size = 1}` and index 3. -/
theorem c4_invalid_ops_amended_witness :
    hc_array_is_valid ⟨none, 0, 0, 1⟩ = false ∧
    (hc_array_t.count ⟨none, 0, 0, 1⟩ = 0) ∧
    hc_array_pop_back ⟨none, 0, 0, 1⟩ true =
      (HC_ARRAY_EMPTY, ⟨none, 0, 0, 1⟩, none) :=
  ⟨by decide, by decide,
    (c4_invalid_ops_amended ⟨none, 0, 0, 1⟩ 3 true (by decide) (by decide)).1⟩

/-- C7: for every index at or beyond `count`, `at` answers "not found"
(`none`) and `pop_at` returns the out-of-bounds error with the buffer
returned unchanged (count, capacity, elem_size and bytes untouched) and no
element copied out. -/
theorem c7_bounds_rejection (v : hc_array_t) (i : Nat) (w : Bool)
    (h : v.count ≤ i) :
    hc_array_at v i = none ∧
    hc_array_pop_at v i w = (HC_ARRAY_ERROR_OUT_OF_BOUNDS, v, none) := by
  constructor
  · rw [hc_array_at, if_pos h]
  · rw [hc_array_pop_at, if_pos h]

/-- C7 witness: instantiated at a one-element buffer probed at
`index = count = 1`. -/
theorem c7_bounds_rejection_witness :
    hc_array_t.count ⟨some [5], 1, 1, 1⟩ ≤ 1 ∧
    hc_array_at ⟨some [5], 1, 1, 1⟩ 1 = none ∧
    hc_array_pop_at ⟨some [5], 1, 1, 1⟩ 1 true =
      (HC_ARRAY_ERROR_OUT_OF_BOUNDS, ⟨some [5], 1, 1, 1⟩, none) :=
  ⟨by decide,
    (c7_bounds_rejection ⟨some [5], 1, 1, 1⟩ 1 true (by decide)).1,
    (c7_bounds_rejection ⟨some [5], 1, 1, 1⟩ 1 true (by decide)).2⟩

/-- C8: `reserve` is a successful no-op whenever the current capacity
already covers the request (it never shrinks), and when it must reallocate
and the reallocation fails it returns the out-of-memory error leaving the
buffer — count, capacity, elem_size and bytes — exactly as it was. -/
theorem c8_reserve_noop_and_failure (v : hc_array_t) (c : Nat) (ok : Bool) :
    (c ≤ v.capacity → hc_array_reserve v c ok = (HC_ARRAY_SUCCESS, v)) ∧
    (v.capacity < c →
      hc_array_reserve v c false = (HC_ARRAY_ERROR_OUT_OF_MEMORY, v)) :=
  ⟨fun h => reserve_of_le v c ok h, fun h => reserve_of_gt_fail v c h⟩

/-- C8 witness: instantiated at a capacity-4 buffer, with a covered request
(2) and a failing grow request (9). -/
theorem c8_reserve_witness :
    (2 ≤ hc_array_t.capacity ⟨some [1, 0, 0, 0], 1, 4, 1⟩ ∧
      hc_array_reserve ⟨some [1, 0, 0, 0], 1, 4, 1⟩ 2 true =
        (HC_ARRAY_SUCCESS, ⟨some [1, 0, 0, 0], 1, 4, 1⟩)) ∧
    (hc_array_t.capacity ⟨some [1, 0, 0, 0], 1, 4, 1⟩ < 9 ∧
      hc_array_reserve ⟨some [1, 0, 0, 0], 1, 4, 1⟩ 9 false =
        (HC_ARRAY_ERROR_OUT_OF_MEMORY, ⟨some [1, 0, 0, 0], 1, 4, 1⟩)) :=
  ⟨⟨by decide,
      (c8_reserve_noop_and_failure ⟨some [1, 0, 0, 0], 1, 4, 1⟩ 2 true).1
        (by decide)⟩,
    ⟨by decide,
      (c8_reserve_noop_and_failure ⟨some [1, 0, 0, 0], 1, 4, 1⟩ 9 false).2
        (by decide)⟩⟩

/-- C5 counterexample: at the requirement `2 ^ 63` — a power of two inside
the `size_t` range that a size-increasing operation can compute — the
64-bit growth computation wraps: the capacity requested is 0, not the
claimed double `2 * 2 ^ 63`. -/
theorem c5_wrap_counterexample :
    hc_grow_size (2 ^ 63) = 0 ∧ hc_grow_size (2 ^ 63) ≠ 2 * 2 ^ 63 := by
  refine ⟨hc_grow_size_wrap_pow2, ?_⟩
  rw [hc_grow_size_wrap_pow2]
  norm_num

/-- C5 (amended): for required element counts `n` with `1 ≤ n < 2 ^ 63` the
capacity the growth computation requests — the value the four
size-increasing operations pass to `reserve` — is twice `n` when `n` is a
power of two, and otherwise the smallest power of two greater than `n`
(itself a power of two, strictly above `n`, and below every other power of
two above `n`); at `2 ^ 63` the 64-bit computation wraps and requests 0; in
particular `push_back` on a buffer with `count = capacity = 4` results in
capacity 8. -/
theorem c5_growth_policy (n : Nat) (h1 : 1 ≤ n) (h63 : n < 2 ^ 63) :
    ((∃ k, n = 2 ^ k) → hc_grow_size n = 2 * n) ∧
    ((¬ ∃ k, n = 2 ^ k) →
      n < hc_grow_size n ∧ (∃ k, hc_grow_size n = 2 ^ k) ∧
        ∀ m, (∃ k, m = 2 ^ k) → n < m → hc_grow_size n ≤ m) ∧
    hc_grow_size (2 ^ 63) = 0 ∧
    (hc_array_push_back ⟨some [1, 2, 3, 4], 4, 4, 1⟩ (some [5]) true).2.capacity
      = 8 := by
  have hn0 : n ≠ 0 := by omega
  refine ⟨?_, ?_, hc_grow_size_wrap_pow2, by decide⟩
  · rintro ⟨k, rfl⟩
    exact hc_grow_size_pow2_small _
      ((land_pred_eq_zero_iff _ hn0).2 (by rw [log2_two_pow])) h63
  · intro hnp
    have hland : ¬ n &&& (n - 1) = 0 := fun hz =>
      hnp ⟨n.log2, (land_pred_eq_zero_iff n hn0).1 hz⟩
    rw [hc_grow_size_not_pow2 n h63 hland]
    refine ⟨Nat.lt_log2_self, ⟨n.log2 + 1, rfl⟩, ?_⟩
    rintro m ⟨j, rfl⟩ hm
    exact Nat.pow_le_pow_right (by norm_num) ((Nat.log2_lt hn0).2 hm)

/-- C5 witness: the growth law instantiated at the non-power-of-two
requirement 5 (the `count = capacity = 4` `push_back` case). -/
theorem c5_growth_policy_witness :
    1 ≤ 5 ∧ 5 < 2 ^ 63 ∧
      ((¬ ∃ k, (5 : Nat) = 2 ^ k) →
        5 < hc_grow_size 5 ∧ (∃ k, hc_grow_size 5 = 2 ^ k) ∧
          ∀ m, (∃ k, m = 2 ^ k) → 5 < m → hc_grow_size 5 ≤ m) :=
  ⟨by norm_num, by norm_num,
    (c5_growth_policy 5 (by norm_num) (by norm_num)).2.1⟩

/-- C10: the out parameter of `pop_front` and `pop_at` is optional: with a
NULL out pointer the call still succeeds, decrements `count`, shifts the
surviving elements left over the removed slot (returning no copied bytes),
and produces exactly the same buffer state as the call with a non-NULL out
pointer. -/
theorem c10_pop_null_out (v : hc_array_t) (i : Nat)
    (hc : v.count ≠ 0) (hi : i < v.count) :
    ((hc_array_pop_front v false).1 = HC_ARRAY_SUCCESS ∧
      (hc_array_pop_front v false).2.1 = (hc_array_pop_front v true).2.1 ∧
      (hc_array_pop_front v false).2.1.count = v.count - 1 ∧
      (hc_array_pop_front v false).2.2 = none ∧
      ∀ bs, v.data = some bs → v.count * v.elem_size ≤ bs.length →
        readBytes (bytesOf (hc_array_pop_front v false).2.1) 0
            ((v.count - 1) * v.elem_size) =
          readBytes bs v.elem_size ((v.count - 1) * v.elem_size)) ∧
    ((hc_array_pop_at v i false).1 = HC_ARRAY_SUCCESS ∧
      (hc_array_pop_at v i false).2.1 = (hc_array_pop_at v i true).2.1 ∧
      (hc_array_pop_at v i false).2.1.count = v.count - 1 ∧
      (hc_array_pop_at v i false).2.2 = none ∧
      ∀ bs, v.data = some bs → v.count * v.elem_size ≤ bs.length →
        (bytesOf (hc_array_pop_at v i false).2.1).take (i * v.elem_size) =
            bs.take (i * v.elem_size) ∧
          readBytes (bytesOf (hc_array_pop_at v i false).2.1)
              (i * v.elem_size) ((v.count - i - 1) * v.elem_size) =
            readBytes bs ((i + 1) * v.elem_size)
              ((v.count - i - 1) * v.elem_size)) := by
  have hnotge : ¬ i ≥ v.count := by omega
  constructor
  · rw [hc_array_pop_front, hc_array_pop_front, if_neg hc, if_neg hc]
    refine ⟨rfl, rfl, rfl, rfl, ?_⟩
    intro bs hbs hlen
    have hsum : v.elem_size + (v.count - 1) * v.elem_size =
        v.count * v.elem_size := by
      have h1 : 1 + (v.count - 1) = v.count := by omega
      calc v.elem_size + (v.count - 1) * v.elem_size
          = (1 + (v.count - 1)) * v.elem_size := by ring
        _ = v.count * v.elem_size := by rw [h1]
    simp only [bytesOf, hbs, Option.getD_some]
    exact readBytes_memmove bs 0 v.elem_size ((v.count - 1) * v.elem_size)
      (by omega) (by omega)
  · rw [hc_array_pop_at, hc_array_pop_at, if_neg hnotge, if_neg hnotge]
    refine ⟨rfl, rfl, rfl, rfl, ?_⟩
    intro bs hbs hlen
    have hsum : (i + 1) * v.elem_size + (v.count - i - 1) * v.elem_size =
        v.count * v.elem_size := by
      have h1 : (i + 1) + (v.count - i - 1) = v.count := by omega
      calc (i + 1) * v.elem_size + (v.count - i - 1) * v.elem_size
          = ((i + 1) + (v.count - i - 1)) * v.elem_size := by ring
        _ = v.count * v.elem_size := by rw [h1]
    have hile : i * v.elem_size + (v.count - i - 1) * v.elem_size ≤
        v.count * v.elem_size := by
      have : i * v.elem_size ≤ (i + 1) * v.elem_size :=
        Nat.mul_le_mul_right _ (by omega)
      omega
    simp only [bytesOf, hbs, Option.getD_some]
    constructor
    · exact take_memmove bs (i * v.elem_size) ((i + 1) * v.elem_size)
        ((v.count - i - 1) * v.elem_size) (by omega)
    · exact readBytes_memmove bs (i * v.elem_size) ((i + 1) * v.elem_size)
        ((v.count - i - 1) * v.elem_size) (by omega) (by omega)

/-- C10 witness: instantiated at the buffer `[1, 2, 3]` with `pop_at`
index 1. -/
theorem c10_pop_null_out_witness :
    hc_array_t.count ⟨some [1, 2, 3], 3, 3, 1⟩ ≠ 0 ∧
    (1 : Nat) < hc_array_t.count ⟨some [1, 2, 3], 3, 3, 1⟩ ∧
    (hc_array_pop_front ⟨some [1, 2, 3], 3, 3, 1⟩ false).2.1 =
      (hc_array_pop_front ⟨some [1, 2, 3], 3, 3, 1⟩ true).2.1 :=
  ⟨by decide, by decide,
    (c10_pop_null_out ⟨some [1, 2, 3], 3, 3, 1⟩ 1 (by decide)
      (by decide)).1.2.1⟩

/-- C9: on a valid buffer (with its data region of the allocated byte size
and `count ≤ capacity`), a successful `push_back` of the `elem_size`-byte
element `x` followed by `pop_back` with an out pointer succeeds, returns the
bytes of `x` unchanged, and restores `count` to its value before the push —
whether or not the push had to grow the capacity first. -/
theorem c9_push_pop_roundtrip (v : hc_array_t) (bs x : List Nat) (ok : Bool)
    (hvalid : hc_array_is_valid v = true)
    (hdata : v.data = some bs)
    (hlen : bs.length = v.capacity * v.elem_size)
    (hcc : v.count ≤ v.capacity)
    (hx : x.length = v.elem_size)
    (hsucc : (hc_array_push_back v (some x) ok).1 = HC_ARRAY_SUCCESS) :
    (hc_array_pop_back (hc_array_push_back v (some x) ok).2 true).1 =
        HC_ARRAY_SUCCESS ∧
    (hc_array_pop_back (hc_array_push_back v (some x) ok).2 true).2.1.count =
        v.count ∧
    (hc_array_pop_back (hc_array_push_back v (some x) ok).2 true).2.2 =
        some x := by
  have hbv : bytesOf v = bs := by rw [bytesOf, hdata]; rfl
  have hfitv : v.count * v.elem_size ≤ (bytesOf v).length := by
    rw [hbv, hlen]
    exact Nat.mul_le_mul_right _ hcc
  have hpad : padTruncate x v.elem_size = x := by rw [← hx, padTruncate_self]
  by_cases hg : v.count ≥ v.capacity
  · by_cases hng : hc_grow_size (v.count + 1) ≤ v.capacity
    · have hpush : hc_array_push_back v (some x) ok =
          (HC_ARRAY_SUCCESS,
            { v with
                data := some (writeBytes (bytesOf v) (v.count * v.elem_size) x),
                count := v.count + 1 }) := by
        rw [hc_array_push_back, if_pos hg, reserve_of_le v _ ok hng]
        simp [HC_ARRAY_SUCCESS, hpad, bytesOf]
      rw [hpush]
      have hpop := pop_after_write v x v.count hx hfitv
      exact ⟨by rw [hpop], by rw [hpop], by rw [hpop]⟩
    · have hgrow : v.capacity < hc_grow_size (v.count + 1) := by omega
      cases ok with
      | false =>
        rw [hc_array_push_back, if_pos hg, reserve_of_gt_fail v _ hgrow]
          at hsucc
        simp [HC_ARRAY_ERROR_OUT_OF_MEMORY, HC_ARRAY_SUCCESS] at hsucc
      | true =>
        have hpush : hc_array_push_back v (some x) true =
            (HC_ARRAY_SUCCESS,
              { v with
                  data := some (writeBytes
                    (bytesOf { v with
                      data := some (padTruncate (bytesOf v)
                        (hc_grow_size (v.count + 1) * v.elem_size)),
                      capacity := hc_grow_size (v.count + 1) })
                    (v.count * v.elem_size) x),
                  capacity := hc_grow_size (v.count + 1),
                  count := v.count + 1 }) := by
          rw [hc_array_push_back, if_pos hg, reserve_of_gt_ok v _ hgrow]
          simp [HC_ARRAY_SUCCESS, hpad, bytesOf]
        have hfit : v.count * v.elem_size ≤
            (bytesOf { v with
              data := some (padTruncate (bytesOf v)
                (hc_grow_size (v.count + 1) * v.elem_size)),
              capacity := hc_grow_size (v.count + 1) }).length := by
          simp only [bytesOf, Option.getD_some, length_padTruncate]
          exact Nat.mul_le_mul_right _ (le_of_lt (lt_of_le_of_lt hcc hgrow))
        rw [hpush]
        have hpop := pop_after_write
          { v with
              data := some (padTruncate (bytesOf v)
                (hc_grow_size (v.count + 1) * v.elem_size)),
              capacity := hc_grow_size (v.count + 1) }
          x v.count hx hfit
        exact ⟨by rw [hpop], by rw [hpop], by rw [hpop]⟩
  · have hpush : hc_array_push_back v (some x) ok =
        (HC_ARRAY_SUCCESS,
          { v with
              data := some (writeBytes (bytesOf v) (v.count * v.elem_size) x),
              count := v.count + 1 }) := by
      rw [hc_array_push_back, if_neg hg]
      simp [HC_ARRAY_SUCCESS, hpad, bytesOf]
    rw [hpush]
    have hpop := pop_after_write v x v.count hx hfitv
    exact ⟨by rw [hpop], by rw [hpop], by rw [hpop]⟩

/-- C9 witness: the round trip instantiated at a one-element buffer of
capacity 2, pushing the byte `7`. -/
theorem c9_push_pop_roundtrip_witness :
    hc_array_is_valid ⟨some [9, 0], 1, 2, 1⟩ = true ∧
    (hc_array_push_back ⟨some [9, 0], 1, 2, 1⟩ (some [7]) true).1 =
      HC_ARRAY_SUCCESS ∧
    (hc_array_pop_back
        (hc_array_push_back ⟨some [9, 0], 1, 2, 1⟩ (some [7]) true).2
        true).2.2 = some [7] :=
  ⟨by decide, by decide,
    (c9_push_pop_roundtrip ⟨some [9, 0], 1, 2, 1⟩ [9, 0] [7] true (by decide)
      rfl (by decide) (by decide) (by decide) (by decide)).2.2⟩

end HC
